import Mathlib

/-!
Shallow embedding of the InsolventByDesign economic engine
(`internal/model/bribe.go`, `internal/model/concentration.go`,
`internal/analysis` statistics and Monte-Carlo files) and proofs of the
specification claims about it.

Modelling conventions:
* Go `*big.Int` (arbitrary-precision integers) is modelled by `Int`;
  a possibly-nil `*big.Int` field by `Option Int`.
* Go `float64` / `*big.Float` arithmetic inside the profit, statistics and
  Monte-Carlo engines is modelled by exact rational arithmetic (`ℚ`);
  IEEE special values are modelled explicitly (type `F64`) only where the
  code can actually produce them (`ComputeProfitabilityMatrix`).
* Go errors are modelled by `Except` with one constructor per distinct
  error condition of the source function.
* Go panics (nil-pointer dereference) are modelled by a dedicated error
  constructor, clearly marked at the definition.
-/

namespace InsolventByDesign

instance {ε α : Type} [DecidableEq ε] [DecidableEq α] :
    DecidableEq (Except ε α) := fun x y =>
  match x, y with
  | .ok a, .ok b =>
    if h : a = b then .isTrue (by rw [h]) else .isFalse (by simp [h])
  | .error a, .error b =>
    if h : a = b then .isTrue (by rw [h]) else .isFalse (by simp [h])
  | .ok _, .error _ => .isFalse (by simp)
  | .error _, .ok _ => .isFalse (by simp)

/-- `SlotBribe` from `internal/model/bribe.go`: slot number, winning bid in
wei (`*big.Int`, hence possibly nil → `Option Int`), builder identity. -/
structure SlotBribe where
  slot : Nat
  valueWei : Option Int
  builderPubkey : String
deriving DecidableEq, Repr

/-- Error conditions of `CensorshipCost` in `internal/model/bribe.go`:
`insufficient data: need %d slots, have %d` and `nil ValueWei at index %d`. -/
inductive CostError where
  | insufficientData (needed got : Nat) : CostError
  | missingValue (idx : Nat) : CostError
deriving DecidableEq, Repr

/-- The accumulation loop of `CensorshipCost`: `for i := 0; i < tau; i++`,
checking `bribes[i].ValueWei == nil` and otherwise adding it to `total`.
The `[]`/`succ` case is unreachable under the length guard in
`CensorshipCost` (index out of range would panic in Go; the guard rules it
out); we return the accumulator there. -/
def ccLoop : List SlotBribe → Nat → Nat → Int → Except CostError Int
  | _, 0, _, acc => .ok acc
  | [], _ + 1, _, acc => .ok acc
  | b :: rest, t + 1, i, acc =>
    match b.valueWei with
    | none => .error (.missingValue i)
    | some v => ccLoop rest t (i + 1) (acc + v)

/-- `CensorshipCost(bribes, tau)` from `internal/model/bribe.go`:
fails when `len(bribes) < tau`, otherwise sums `ValueWei` of the first
`tau` records, failing on a nil value. -/
def CensorshipCost (bribes : List SlotBribe) (tau : Nat) :
    Except CostError Int :=
  if bribes.length < tau then
    .error (.insufficientData tau bribes.length)
  else
    ccLoop bribes tau 0 0

/-- The first `tau` bid values, in input order, when they are all present
(`getD 0` never fires under the presence hypotheses used below). -/
def firstValues (bribes : List SlotBribe) (tau : Nat) : List Int :=
  (bribes.take tau).map (fun b => b.valueWei.getD 0)

/-- All of the first `tau` records carry a present (non-nil) bid value. -/
def PresentFirst (bribes : List SlotBribe) (tau : Nat) : Prop :=
  ∀ b ∈ bribes.take tau, b.valueWei ≠ none

instance (bribes : List SlotBribe) (tau : Nat) :
    Decidable (PresentFirst bribes tau) := by
  unfold PresentFirst; infer_instance

theorem ccLoop_zero (l : List SlotBribe) (i : Nat) (acc : Int) :
    ccLoop l 0 i acc = .ok acc := by
  cases l <;> rfl

theorem ccLoop_ok_of_present (l : List SlotBribe) :
    ∀ (t i : Nat) (acc : Int), t ≤ l.length →
      (∀ b ∈ l.take t, b.valueWei ≠ none) →
      ccLoop l t i acc = .ok (acc + ((l.take t).map
        (fun b => b.valueWei.getD 0)).sum) := by
  induction l with
  | nil =>
    intro t i acc ht _
    have : t = 0 := by simpa using ht
    subst this
    simp [ccLoop_zero]
  | cons b rest ih =>
    intro t i acc ht hp
    cases t with
    | zero => simp [ccLoop_zero]
    | succ t =>
      have hb : b.valueWei ≠ none := hp b (by simp)
      obtain ⟨v, hv⟩ : ∃ v, b.valueWei = some v := by
        cases h : b.valueWei with
        | none => exact absurd h hb
        | some v => exact ⟨v, rfl⟩
      have hrest : ∀ x ∈ rest.take t, x.valueWei ≠ none := by
        intro x hx
        exact hp x (by simp [List.take_succ_cons]; right; exact hx)
      have := ih t (i + 1) (acc + v) (by simpa using ht) hrest
      simp only [ccLoop, hv, this, List.take_succ_cons, List.map_cons,
        List.sum_cons, Option.getD_some]
      ring_nf

theorem ccLoop_missing (l : List SlotBribe) :
    ∀ (t i : Nat) (acc : Int), (∃ b ∈ l.take t, b.valueWei = none) →
      ∃ j, ccLoop l t i acc = .error (.missingValue j) := by
  induction l with
  | nil => intro t i acc h; simp at h
  | cons b rest ih =>
    intro t i acc h
    cases t with
    | zero => simp at h
    | succ t =>
      cases hv : b.valueWei with
      | none => exact ⟨i, by simp [ccLoop, hv]⟩
      | some v =>
        obtain ⟨x, hx, hxn⟩ := h
        rw [List.take_succ_cons] at hx
        rcases List.mem_cons.mp hx with rfl | hx
        · exact absurd hxn (by simp [hv])
        · obtain ⟨j, hj⟩ := ih t (i + 1) (acc + v) ⟨x, hx, hxn⟩
          exact ⟨j, by simp [ccLoop, hv, hj]⟩

theorem censorshipCost_ok_sum (bribes : List SlotBribe) (tau : Nat)
    (h1 : tau ≤ bribes.length) (h2 : PresentFirst bribes tau) :
    CensorshipCost bribes tau = .ok (firstValues bribes tau).sum := by
  unfold CensorshipCost firstValues
  rw [if_neg (by omega)]
  simpa using ccLoop_ok_of_present bribes tau 0 0 h1 h2

/-- **C1.** `CensorshipCost` fails with `InsufficientData` when the list has
fewer than `tau` records; it fails with `MissingValue` when the list has at
least `tau` records and some record among the first `tau` has an absent
(nil) bid value; and for `tau = 0` it returns zero without error, for every
record list including the empty one. -/
theorem censorshipCost_error_contract (bribes : List SlotBribe) (tau : Nat) :
    (bribes.length < tau →
      CensorshipCost bribes tau =
        .error (.insufficientData tau bribes.length)) ∧
    (tau ≤ bribes.length → (∃ b ∈ bribes.take tau, b.valueWei = none) →
      ∃ j, CensorshipCost bribes tau = .error (.missingValue j)) ∧
    CensorshipCost bribes 0 = .ok 0 := by
  refine ⟨fun h => ?_, fun h hnil => ?_, ?_⟩
  · unfold CensorshipCost; rw [if_pos h]
  · unfold CensorshipCost
    rw [if_neg (by omega)]
    exact ccLoop_missing bribes tau 0 0 hnil
  · unfold CensorshipCost
    rw [if_neg (by omega)]
    exact ccLoop_zero bribes 0 0

theorem censorshipCost_error_contract_witness :
    CensorshipCost [⟨1, none, "a"⟩] 2 = .error (.insufficientData 2 1) ∧
    (∃ j, CensorshipCost [⟨1, none, "a"⟩] 1 =
      .error (.missingValue j)) ∧
    CensorshipCost ([] : List SlotBribe) 0 = .ok 0 :=
  ⟨(censorshipCost_error_contract [⟨1, none, "a"⟩] 2).1 (by decide),
   (censorshipCost_error_contract [⟨1, none, "a"⟩] 1).2.1 (by decide)
     ⟨⟨1, none, "a"⟩, by decide, rfl⟩,
   (censorshipCost_error_contract [] 0).2.2⟩

/-- **C2.** `CensorshipCost` sums the bid values of the first `tau` records
in input order using arbitrary-precision integer arithmetic: whenever the
first `tau` values are present it returns exactly the mathematical sum of
those values (model: `Int`, the faithful image of Go `big.Int`), with no
fixed-width wraparound. The witness below instantiates the `2⁶⁴−1` pair. -/
theorem censorshipCost_exact_sum (bribes : List SlotBribe) (tau : Nat)
    (h1 : tau ≤ bribes.length) (h2 : PresentFirst bribes tau) :
    CensorshipCost bribes tau = .ok (firstValues bribes tau).sum :=
  censorshipCost_ok_sum bribes tau h1 h2

theorem censorshipCost_exact_sum_witness :
    CensorshipCost [⟨1, some (2 ^ 64 - 1), "a"⟩, ⟨2, some (2 ^ 64 - 1), "b"⟩]
      2 = .ok (2 * (2 ^ 64 - 1)) := by
  have h := censorshipCost_exact_sum
    [⟨1, some (2 ^ 64 - 1), "a"⟩, ⟨2, some (2 ^ 64 - 1), "b"⟩] 2
    (by decide) (by decide)
  rw [h]
  norm_num [firstValues]

/-- **C8.** For a fixed record list in which all bid values are non-negative
and present, `CensorshipCost` is monotone in the duration: both calls
succeed and `CensorshipCost(τ₂) ≥ CensorshipCost(τ₁)` whenever `τ₂ > τ₁`
(both within the record count, so that both calls succeed). -/
theorem censorshipCost_monotone (bribes : List SlotBribe) (tau1 tau2 : Nat)
    (hlt : tau1 < tau2) (hlen : tau2 ≤ bribes.length)
    (hpres : ∀ b ∈ bribes, b.valueWei ≠ none)
    (hnn : ∀ b ∈ bribes, ∀ v, b.valueWei = some v → 0 ≤ v) :
    ∃ c1 c2, CensorshipCost bribes tau1 = .ok c1 ∧
      CensorshipCost bribes tau2 = .ok c2 ∧ c1 ≤ c2 := by
  have hp1 : PresentFirst bribes tau1 :=
    fun b hb => hpres b (List.mem_of_mem_take hb)
  have hp2 : PresentFirst bribes tau2 :=
    fun b hb => hpres b (List.mem_of_mem_take hb)
  refine ⟨(firstValues bribes tau1).sum, (firstValues bribes tau2).sum,
    censorshipCost_ok_sum bribes tau1 (by omega) hp1,
    censorshipCost_ok_sum bribes tau2 hlen hp2, ?_⟩
  have hsplit : bribes.take tau2 =
      bribes.take tau1 ++ (bribes.drop tau1).take (tau2 - tau1) := by
    rw [← List.take_add]
    congr 1
    omega
  unfold firstValues
  rw [hsplit, List.map_append, List.sum_append]
  have hnonneg : 0 ≤ (((bribes.drop tau1).take (tau2 - tau1)).map
      (fun b => b.valueWei.getD 0)).sum := by
    apply List.sum_nonneg
    intro x hx
    obtain ⟨b, hb, rfl⟩ := List.mem_map.mp hx
    have hbmem : b ∈ bribes :=
      List.mem_of_mem_drop (List.mem_of_mem_take hb)
    cases hv : b.valueWei with
    | none => simp
    | some v => simpa [hv] using hnn b hbmem v hv
  omega

theorem censorshipCost_monotone_witness :
    ∃ c1 c2, CensorshipCost [⟨1, some 3, "a"⟩, ⟨2, some 4, "b"⟩] 1 = .ok c1 ∧
      CensorshipCost [⟨1, some 3, "a"⟩, ⟨2, some 4, "b"⟩] 2 = .ok c2 ∧
      c1 ≤ c2 :=
  censorshipCost_monotone [⟨1, some 3, "a"⟩, ⟨2, some 4, "b"⟩] 1 2
    (by decide) (by decide) (by decide)
    (by intro b hb v hv; fin_cases hb <;> simp_all <;> omega)

/-! ## Concentration engine (`internal/model/concentration.go`) -/

/-- `BuilderStats` from `internal/model/concentration.go`. -/
structure BuilderStats where
  builderPubkey : String
  blockCount : Nat
deriving DecidableEq, Repr

/-- Error conditions of `ComputeBuilderConcentration`:
`empty bribes slice` and `topK must be at least 1`. -/
inductive ConcError where
  | emptyDataset : ConcError
  | invalidTopK (k : Int) : ConcError
deriving DecidableEq, Repr

/-- The key normalization in the counting loop: an empty `BuilderPubkey`
is replaced by the sentinel `"unknown"`. -/
def normKey (s : String) : String := if s = "" then "unknown" else s

/-- The normalized builder key of every record, in input order. -/
def builderKeyList (bribes : List SlotBribe) : List String :=
  bribes.map (fun b => normKey b.builderPubkey)

/-- The `builderCounts` map of `ComputeBuilderConcentration`, realized as
one `BuilderStats` per distinct normalized key with its occurrence count.
(Go iterates the map in unspecified order; the subsequent sort makes the
order of distinct-count entries canonical, and tie order is unspecified in
the source — `sort.Slice` is unstable.) -/
def builderStatsList (bribes : List SlotBribe) : List BuilderStats :=
  (builderKeyList bribes).dedup.map
    (fun k => ⟨k, (builderKeyList bribes).count k⟩)

/-- The `sort.Slice(stats, … BlockCount > …)` step: sort descending by
block count. We realize the unstable comparison sort by a stable
insertion sort on the same comparison — one admissible outcome. -/
def sortedStats (bribes : List SlotBribe) : List BuilderStats :=
  List.insertionSort (fun a b => b.blockCount ≤ a.blockCount)
    (builderStatsList bribes)

/-- `ComputeBuilderConcentration(bribes, topK)` from
`internal/model/concentration.go`: rejects empty input and `topK < 1`,
clamps `topK` to the number of unique builders, and returns
`alpha = (blocks of top-k builders) / (total blocks)` (a `float64`
division, modelled exactly in `ℚ`) together with the sorted stats. -/
def ComputeBuilderConcentration (bribes : List SlotBribe) (topK : Int) :
    Except ConcError (ℚ × List BuilderStats) :=
  if bribes.length = 0 then .error .emptyDataset
  else if topK < 1 then .error (.invalidTopK topK)
  else
    let stats := sortedStats bribes
    let actualK : Nat := min topK.toNat stats.length
    let topKBlocks : Nat := ((stats.take actualK).map (·.blockCount)).sum
    .ok ((topKBlocks : ℚ) / (bribes.length : ℚ), stats)

/-- The number of unique builder identities, empty ones normalized. -/
def uniqueBuilderCount (bribes : List SlotBribe) : Nat :=
  (builderKeyList bribes).dedup.length

theorem sortedStats_perm (bribes : List SlotBribe) :
    (sortedStats bribes).Perm (builderStatsList bribes) :=
  List.perm_insertionSort _ _

theorem sortedStats_length (bribes : List SlotBribe) :
    (sortedStats bribes).length = uniqueBuilderCount bribes := by
  rw [(sortedStats_perm bribes).length_eq]
  simp [builderStatsList, uniqueBuilderCount]

theorem sortedStats_total (bribes : List SlotBribe) :
    ((sortedStats bribes).map (·.blockCount)).sum = bribes.length := by
  rw [((sortedStats_perm bribes).map (·.blockCount)).sum_eq]
  have : (builderStatsList bribes).map (·.blockCount) =
      (builderKeyList bribes).dedup.map
        (fun k => (builderKeyList bribes).count k) := by
    simp [builderStatsList]
  rw [this, List.sum_map_count_dedup_eq_length]
  simp [builderKeyList]

theorem take_blockCount_sum_le (stats : List BuilderStats) (k : Nat) :
    ((stats.take k).map (·.blockCount)).sum ≤
      (stats.map (·.blockCount)).sum := by
  conv_rhs => rw [← List.take_append_drop k stats]
  rw [List.map_append, List.sum_append]
  omega

/-- **C4.** For every non-empty record list and cartel size `k ≥ 1`,
`ComputeBuilderConcentration` succeeds and its `alpha` satisfies
`0 ≤ alpha ≤ 1`; moreover `alpha = 1` whenever `k` is at least the number
of unique builder identities (empty identities normalized to the
`"unknown"` sentinel) — which covers the single-builder monopoly for any
`k ≥ 1` and any `k` exceeding the unique-builder count. -/
theorem computeBuilderConcentration_alpha_bounds (bribes : List SlotBribe)
    (topK : Int) (hne : bribes ≠ []) (hk : 1 ≤ topK) :
    ∃ alpha stats,
      ComputeBuilderConcentration bribes topK = .ok (alpha, stats) ∧
      0 ≤ alpha ∧ alpha ≤ 1 ∧
      ((uniqueBuilderCount bribes : Int) ≤ topK → alpha = 1) := by
  have hlen : bribes.length ≠ 0 := by simpa using hne
  have hlen0 : 0 < bribes.length := Nat.pos_of_ne_zero hlen
  unfold ComputeBuilderConcentration
  rw [if_neg hlen, if_neg (by omega)]
  refine ⟨_, _, rfl, ?_, ?_, ?_⟩
  · positivity
  · rw [div_le_one (by exact_mod_cast hlen0)]
    have h1 := take_blockCount_sum_le (sortedStats bribes)
      (min topK.toNat (sortedStats bribes).length)
    have h2 := sortedStats_total bribes
    exact_mod_cast h2 ▸ h1
  · intro hcl
    have hkk : (sortedStats bribes).length ≤ topK.toNat := by
      rw [sortedStats_length]
      omega
    rw [min_eq_right hkk, List.take_length, sortedStats_total]
    rw [div_self (by exact_mod_cast hlen)]

theorem computeBuilderConcentration_alpha_bounds_witness :
    ∃ alpha stats,
      ComputeBuilderConcentration
        [⟨1, some 1, "m"⟩, ⟨2, some 2, "m"⟩] 5 = .ok (alpha, stats) ∧
      0 ≤ alpha ∧ alpha ≤ 1 ∧
      ((uniqueBuilderCount [⟨1, some 1, "m"⟩, ⟨2, some 2, "m"⟩] : Int) ≤ 5 →
        alpha = 1) :=
  computeBuilderConcentration_alpha_bounds
    [⟨1, some 1, "m"⟩, ⟨2, some 2, "m"⟩] 5 (by decide) (by decide)

/-! ## Profit engine (`internal/model/bribe.go`) -/

/-- Error conditions of the profit-engine functions in
`internal/model/bribe.go`, one constructor per distinct `fmt.Errorf`
site (wrapped sub-errors keep their payload). -/
inductive ModelError where
  | costErr (e : CostError)
  | concErr (e : ConcError)
  | invalidAlpha (a : ℚ)
  | invalidProbability (p : ℚ)
  | nilTVL
  | negativeTVL
  | invalidSteps (n : Int)
  | invalidMinP (p : ℚ)
  | invalidMaxP (p : ℚ)
  | invertedRange (minP maxP : ℚ)
deriving DecidableEq, Repr

/-- `EffectiveCensorshipCost(bribes, tau, topK)`:
raw cost, then concentration over the **whole** `bribes` slice, a sanity
check `alpha ∈ [0,1]`, then `ccEff = (1 − alpha) · cc` (a `big.Float`
product, modelled exactly in `ℚ`). Returns `(ccEff, alpha)`. -/
def EffectiveCensorshipCost (bribes : List SlotBribe) (tau : Nat)
    (topK : Int) : Except ModelError (ℚ × ℚ) :=
  match CensorshipCost bribes tau with
  | .error e => .error (.costErr e)
  | .ok cc =>
    match ComputeBuilderConcentration bribes topK with
    | .error e => .error (.concErr e)
    | .ok (alpha, _) =>
      if alpha < 0 ∨ alpha > 1 then .error (.invalidAlpha alpha)
      else .ok (((1 : ℚ) - alpha) * (cc : ℚ), alpha)

/-- `ProfitParams` from `internal/model/bribe.go`; `BridgeTVL` is a
`*big.Float`, hence possibly nil → `Option ℚ`. -/
structure ProfitParams where
  bridgeTVL : Option ℚ
  successProbability : ℚ
  tau : Nat
  topK : Int

/-- `ProfitResult` from `internal/model/bribe.go`. -/
structure ProfitResult where
  expectedRevenue : ℚ
  effectiveCost : ℚ
  profit : ℚ
  alpha : ℚ
  successProb : ℚ
  tvl : ℚ
deriving DecidableEq, Repr

/-- `AttackerProfit(bribes, params)`: validates
`SuccessProbability ∈ [0,1]`, non-nil and non-negative `BridgeTVL`, then
`profit = p·V − ccEff`. -/
def AttackerProfit (bribes : List SlotBribe) (params : ProfitParams) :
    Except ModelError ProfitResult :=
  if params.successProbability < 0 ∨ params.successProbability > 1 then
    .error (.invalidProbability params.successProbability)
  else
    match params.bridgeTVL with
    | none => .error .nilTVL
    | some tvl =>
      if tvl < 0 then .error .negativeTVL
      else
        match EffectiveCensorshipCost bribes params.tau params.topK with
        | .error e => .error e
        | .ok (ccEff, alpha) =>
          .ok { expectedRevenue := params.successProbability * tvl
                effectiveCost := ccEff
                profit := params.successProbability * tvl - ccEff
                alpha := alpha
                successProb := params.successProbability
                tvl := tvl }

/-- `FindBreakevenTVL(bribes, successProb, tau, topK)`: validates
`successProb ∈ (0,1]`, then `V* = ccEff / p`. Returns `(V*, alpha)`. -/
def FindBreakevenTVL (bribes : List SlotBribe) (successProb : ℚ)
    (tau : Nat) (topK : Int) : Except ModelError (ℚ × ℚ) :=
  if successProb ≤ 0 ∨ successProb > 1 then
    .error (.invalidProbability successProb)
  else
    match EffectiveCensorshipCost bribes tau topK with
    | .error e => .error e
    | .ok (ccEff, alpha) => .ok (ccEff / successProb, alpha)

theorem cbc_ok_alpha_bounds {bribes : List SlotBribe} {topK : Int}
    {alpha : ℚ} {stats : List BuilderStats}
    (h : ComputeBuilderConcentration bribes topK = .ok (alpha, stats)) :
    0 ≤ alpha ∧ alpha ≤ 1 := by
  unfold ComputeBuilderConcentration at h
  by_cases h0 : bribes.length = 0
  · rw [if_pos h0] at h; exact absurd h (by simp)
  · rw [if_neg h0] at h
    by_cases h1 : topK < 1
    · rw [if_pos h1] at h; exact absurd h (by simp)
    · rw [if_neg h1] at h
      simp only [Except.ok.injEq, Prod.mk.injEq] at h
      obtain ⟨rfl, -⟩ := h
      constructor
      · positivity
      · rw [div_le_one (by exact_mod_cast Nat.pos_of_ne_zero h0)]
        have ht := take_blockCount_sum_le (sortedStats bribes)
          (min topK.toNat (sortedStats bribes).length)
        have h2 := sortedStats_total bribes
        exact_mod_cast h2 ▸ ht

/-- **C3.** Whenever both sub-computations succeed,
`EffectiveCensorshipCost(records, τ, k)` returns exactly
`(1 − alpha) × CensorshipCost(records, τ)`, where `alpha` is
`ComputeBuilderConcentration` applied to the **entire** supplied record
set (not restricted to the first τ records). -/
theorem effectiveCensorshipCost_formula (bribes : List SlotBribe)
    (tau : Nat) (topK : Int) (cc : Int) (alpha : ℚ)
    (stats : List BuilderStats)
    (hcc : CensorshipCost bribes tau = .ok cc)
    (hconc : ComputeBuilderConcentration bribes topK = .ok (alpha, stats)) :
    EffectiveCensorshipCost bribes tau topK =
      .ok ((1 - alpha) * (cc : ℚ), alpha) := by
  obtain ⟨h0, h1⟩ := cbc_ok_alpha_bounds hconc
  unfold EffectiveCensorshipCost
  simp only [hcc, hconc]
  rw [if_neg (by push_neg; exact ⟨h0, h1⟩)]

unseal Rat.mul Rat.inv Rat.add Rat.sub in
theorem effectiveCensorshipCost_formula_witness :
    EffectiveCensorshipCost [⟨1, some 10, "a"⟩, ⟨2, some 20, "b"⟩] 1 1 =
      .ok ((1 - (1 : ℚ)/2) * ((10 : Int) : ℚ), (1 : ℚ)/2) :=
  effectiveCensorshipCost_formula [⟨1, some 10, "a"⟩, ⟨2, some 20, "b"⟩]
    1 1 10 (1/2) [⟨"a", 1⟩, ⟨"b", 1⟩] (by decide) (by decide)

theorem ccLoop_ok_nonneg (l : List SlotBribe) :
    ∀ (t i : Nat) (acc s : Int), t ≤ l.length →
      (∀ b ∈ l, ∀ v, b.valueWei = some v → 0 ≤ v) → 0 ≤ acc →
      ccLoop l t i acc = .ok s → 0 ≤ s := by
  induction l with
  | nil =>
    intro t i acc s ht _ hacc h
    have : t = 0 := by simpa using ht
    subst this
    rw [ccLoop_zero] at h
    simp only [Except.ok.injEq] at h
    omega
  | cons b rest ih =>
    intro t i acc s ht hnn hacc h
    cases t with
    | zero =>
      rw [ccLoop_zero] at h
      simp only [Except.ok.injEq] at h
      omega
    | succ t =>
      cases hv : b.valueWei with
      | none => rw [ccLoop, hv] at h; exact absurd h (by simp)
      | some v =>
        rw [ccLoop, hv] at h
        have hvnn : 0 ≤ v := hnn b (by simp) v hv
        exact ih t (i + 1) (acc + v) s (by simpa using ht)
          (fun x hx => hnn x (by simp [hx])) (by omega) h

theorem censorshipCost_ok_nonneg {bribes : List SlotBribe} {tau : Nat}
    {cc : Int} (hnn : ∀ b ∈ bribes, ∀ v, b.valueWei = some v → 0 ≤ v)
    (h : CensorshipCost bribes tau = .ok cc) : 0 ≤ cc := by
  unfold CensorshipCost at h
  by_cases hl : bribes.length < tau
  · rw [if_pos hl] at h; exact absurd h (by simp)
  · rw [if_neg hl] at h
    exact ccLoop_ok_nonneg bribes tau 0 0 cc (by omega) hnn le_rfl h

theorem ecc_ok_inv {bribes : List SlotBribe} {tau : Nat} {topK : Int}
    {ccEff alpha : ℚ}
    (h : EffectiveCensorshipCost bribes tau topK = .ok (ccEff, alpha)) :
    ∃ cc stats, CensorshipCost bribes tau = .ok cc ∧
      ComputeBuilderConcentration bribes topK = .ok (alpha, stats) ∧
      ccEff = (1 - alpha) * (cc : ℚ) ∧ 0 ≤ alpha ∧ alpha ≤ 1 := by
  unfold EffectiveCensorshipCost at h
  cases hcc : CensorshipCost bribes tau with
  | error e => simp only [hcc] at h; exact Except.noConfusion h
  | ok cc =>
    simp only [hcc] at h
    cases hconc : ComputeBuilderConcentration bribes topK with
    | error e => simp only [hconc] at h; exact Except.noConfusion h
    | ok pr =>
      obtain ⟨a, stats⟩ := pr
      simp only [hconc] at h
      by_cases hb : a < 0 ∨ a > 1
      · rw [if_pos hb] at h; exact Except.noConfusion h
      · rw [if_neg hb] at h
        push_neg at hb
        simp only [Except.ok.injEq, Prod.mk.injEq] at h
        obtain ⟨rfl, rfl⟩ := h
        exact ⟨cc, stats, rfl, rfl, rfl, hb.1, hb.2⟩

/-- **C5.** For every well-formed record list (all present bid values
non-negative, per the data-model invariant) and parameters under which
`EffectiveCensorshipCost` succeeds, and every probability `0 < p ≤ 1`:
`FindBreakevenTVL` returns `ccEff / p`, and feeding that TVL back into
`AttackerProfit` with the same `p` succeeds with profit exactly `0`
(hence within any numerical tolerance). -/
theorem breakeven_profit_zero (bribes : List SlotBribe) (p : ℚ) (tau : Nat)
    (topK : Int) (ccEff alpha : ℚ) (hp0 : 0 < p) (hp1 : p ≤ 1)
    (hnn : ∀ b ∈ bribes, ∀ v, b.valueWei = some v → 0 ≤ v)
    (heff : EffectiveCensorshipCost bribes tau topK = .ok (ccEff, alpha)) :
    FindBreakevenTVL bribes p tau topK = .ok (ccEff / p, alpha) ∧
    ∃ res, AttackerProfit bribes ⟨some (ccEff / p), p, tau, topK⟩ =
      .ok res ∧ res.profit = 0 := by
  obtain ⟨cc, stats, hcc, hconc, hccEff, ha0, ha1⟩ := ecc_ok_inv heff
  have hccnn : 0 ≤ cc := censorshipCost_ok_nonneg hnn hcc
  have hccEffnn : 0 ≤ ccEff := by
    rw [hccEff]
    have : (0 : ℚ) ≤ (cc : ℚ) := by exact_mod_cast hccnn
    nlinarith
  have hprof : AttackerProfit bribes ⟨some (ccEff / p), p, tau, topK⟩ =
      .ok { expectedRevenue := p * (ccEff / p), effectiveCost := ccEff
            profit := p * (ccEff / p) - ccEff, alpha := alpha
            successProb := p, tvl := ccEff / p } := by
    unfold AttackerProfit
    simp only [heff]
    rw [if_neg (by push_neg; exact ⟨le_of_lt hp0, hp1⟩),
      if_neg (by push_neg; positivity)]
  constructor
  · unfold FindBreakevenTVL
    simp only [heff]
    rw [if_neg (by push_neg; exact ⟨hp0, hp1⟩)]
  · refine ⟨_, hprof, ?_⟩
    simp only
    field_simp

unseal Rat.mul Rat.inv Rat.add Rat.sub in
theorem breakeven_profit_zero_witness :
    FindBreakevenTVL [⟨1, some 10, "a"⟩, ⟨2, some 20, "b"⟩] (1/2) 1 1 =
      .ok ((5 : ℚ) / (1/2), 1/2) ∧
    ∃ res, AttackerProfit [⟨1, some 10, "a"⟩, ⟨2, some 20, "b"⟩]
      ⟨some ((5 : ℚ) / (1/2)), 1/2, 1, 1⟩ = .ok res ∧ res.profit = 0 :=
  breakeven_profit_zero [⟨1, some 10, "a"⟩, ⟨2, some 20, "b"⟩] (1/2) 1 1
    5 (1/2) (by norm_num) (by norm_num)
    (by intro b hb v hv; fin_cases hb <;> simp_all <;> omega)
    (by decide)

/-! ## Probability sweep (`SweepProbability` in `internal/model/bribe.go`) -/

/-- `ProfitSweepResult` from `internal/model/bribe.go`. -/
structure ProfitSweepResult where
  results : List ProfitResult
  minP : ℚ
  maxP : ℚ
  steps : Int
deriving DecidableEq, Repr

/-- The multi-step loop of `SweepProbability`:
`for i := 0; i < steps; i++ { p := minP + float64(i)*stepSize; … }`,
aborting on the first `AttackerProfit` error. `i` is the running loop
index, the second argument the number of remaining iterations. -/
def sweepLoop (bribes : List SlotBribe) (tvl : Option ℚ) (tau : Nat)
    (topK : Int) (minP stepSize : ℚ) :
    Nat → Nat → Except ModelError (List ProfitResult)
  | _, 0 => .ok []
  | i, n + 1 =>
    match AttackerProfit bribes
        ⟨tvl, minP + (i : ℚ) * stepSize, tau, topK⟩ with
    | .error e => .error e
    | .ok r =>
      match sweepLoop bribes tvl tau topK minP stepSize (i + 1) n with
      | .error e => .error e
      | .ok rs => .ok (r :: rs)

/-- `SweepProbability(bribes, tvl, tau, topK, minP, maxP, steps)` from
`internal/model/bribe.go`: validates `steps ≥ 1`,
`minP, maxP ∈ [0,1]`, `minP ≤ maxP`; with `steps = 1` evaluates only at
`minP`, otherwise sweeps `steps` equally spaced probabilities from `minP`
with step `(maxP − minP)/(steps − 1)`. -/
def SweepProbability (bribes : List SlotBribe) (tvl : Option ℚ)
    (tau : Nat) (topK : Int) (minP maxP : ℚ) (steps : Int) :
    Except ModelError ProfitSweepResult :=
  if steps < 1 then .error (.invalidSteps steps)
  else if minP < 0 ∨ minP > 1 then .error (.invalidMinP minP)
  else if maxP < 0 ∨ maxP > 1 then .error (.invalidMaxP maxP)
  else if minP > maxP then .error (.invertedRange minP maxP)
  else if steps = 1 then
    match AttackerProfit bribes ⟨tvl, minP, tau, topK⟩ with
    | .error e => .error e
    | .ok r => .ok ⟨[r], minP, maxP, 1⟩
  else
    let stepSize := (maxP - minP) / (((steps - 1 : Int) : ℚ))
    match sweepLoop bribes tvl tau topK minP stepSize 0 steps.toNat with
    | .error e => .error e
    | .ok rs => .ok ⟨rs, minP, maxP, steps⟩

theorem attackerProfit_eval (bribes : List SlotBribe) (p V : ℚ)
    (tau : Nat) (topK : Int) (ccEff alpha : ℚ)
    (hp0 : 0 ≤ p) (hp1 : p ≤ 1) (hV : 0 ≤ V)
    (heff : EffectiveCensorshipCost bribes tau topK = .ok (ccEff, alpha)) :
    AttackerProfit bribes ⟨some V, p, tau, topK⟩ =
      .ok ⟨p * V, ccEff, p * V - ccEff, alpha, p, V⟩ := by
  unfold AttackerProfit
  simp only [heff]
  rw [if_neg (by push_neg; exact ⟨hp0, hp1⟩), if_neg (not_lt.mpr hV)]

theorem sweepLoop_ok (bribes : List SlotBribe) (tau : Nat) (topK : Int)
    (V minP stepSize ccEff alpha : ℚ)
    (heff : EffectiveCensorshipCost bribes tau topK = .ok (ccEff, alpha))
    (hV : 0 ≤ V) :
    ∀ (n i : Nat),
      (∀ j, i ≤ j → j < i + n → 0 ≤ minP + (j : ℚ) * stepSize ∧
        minP + (j : ℚ) * stepSize ≤ 1) →
      sweepLoop bribes (some V) tau topK minP stepSize i n =
        .ok ((List.range' i n).map (fun (j : Nat) =>
          ⟨(minP + (j : ℚ) * stepSize) * V, ccEff,
           (minP + (j : ℚ) * stepSize) * V - ccEff, alpha,
           minP + (j : ℚ) * stepSize, V⟩)) := by
  intro n
  induction n with
  | zero => intro i _; rfl
  | succ n ih =>
    intro i hp
    have hpi := hp i le_rfl (by omega)
    unfold sweepLoop
    rw [attackerProfit_eval bribes _ V tau topK ccEff alpha hpi.1 hpi.2
      hV heff]
    rw [ih (i + 1) (fun j hj1 hj2 => hp j (by omega) (by omega))]
    rw [List.range'_succ, List.map_cons]

/-- **C7 (amended).** Under passing validation (`0 ≤ minP ≤ maxP ≤ 1`,
non-negative TVL) and a successful effective-cost computation,
`SweepProbability` with `steps = 1` evaluates `Profit` only at `minP`,
and with `steps ≥ 2` evaluates it at `steps` equally spaced probabilities
`minP + i·(maxP − minP)/(steps − 1)` returned in increasing-probability
order (strictly increasing when `minP < maxP`); the returned profits are
then `p·V − ccEff` and are **strictly increasing with probability
whenever the TVL is positive** (for `V = 0` they are constant — see the
counterexample — so strictness needs `V > 0`). -/
theorem sweepProbability_spec (bribes : List SlotBribe) (tau : Nat)
    (topK : Int) (V minP maxP : ℚ) (steps : Int) (ccEff alpha : ℚ)
    (heff : EffectiveCensorshipCost bribes tau topK = .ok (ccEff, alpha))
    (hV : 0 ≤ V) (h0 : 0 ≤ minP) (h1 : maxP ≤ 1) (hle : minP ≤ maxP) :
    (steps = 1 →
      SweepProbability bribes (some V) tau topK minP maxP steps =
        .ok ⟨[⟨minP * V, ccEff, minP * V - ccEff, alpha, minP, V⟩],
             minP, maxP, 1⟩) ∧
    (2 ≤ steps →
      SweepProbability bribes (some V) tau topK minP maxP steps =
        .ok ⟨(List.range' 0 steps.toNat).map (fun (j : Nat) =>
            ⟨(minP + (j : ℚ) * ((maxP - minP) / ((steps - 1 : Int) : ℚ)))
                * V, ccEff,
             (minP + (j : ℚ) * ((maxP - minP) / ((steps - 1 : Int) : ℚ)))
                * V - ccEff, alpha,
             minP + (j : ℚ) * ((maxP - minP) / ((steps - 1 : Int) : ℚ)),
             V⟩),
          minP, maxP, steps⟩ ∧
      (minP < maxP →
        ((List.range' 0 steps.toNat).map (fun (j : Nat) =>
          minP + (j : ℚ) * ((maxP - minP) / ((steps - 1 : Int) : ℚ)))).Chain'
            (· < ·)) ∧
      (minP < maxP → 0 < V →
        ((List.range' 0 steps.toNat).map (fun (j : Nat) =>
          (minP + (j : ℚ) * ((maxP - minP) / ((steps - 1 : Int) : ℚ)))
            * V - ccEff)).Chain' (· < ·))) := by
  have hmax0 : 0 ≤ maxP := h0.trans hle
  have hmin1 : minP ≤ 1 := hle.trans h1
  constructor
  · intro h1s
    subst h1s
    unfold SweepProbability
    rw [if_neg (by omega), if_neg (by push_neg; exact ⟨h0, hmin1⟩),
      if_neg (by push_neg; exact ⟨hmax0, h1⟩), if_neg (not_lt.mpr hle),
      if_pos rfl,
      attackerProfit_eval bribes minP V tau topK ccEff alpha h0 hmin1
        hV heff]
  · intro h2s
    have hs1 : ((steps - 1 : Int) : ℚ) > 0 := by
      have : (1 : Int) ≤ steps - 1 := by omega
      exact_mod_cast lt_of_lt_of_le zero_lt_one (by exact_mod_cast this)
    set stp : ℚ := (maxP - minP) / ((steps - 1 : Int) : ℚ) with hstp
    have hstpnn : 0 ≤ stp := by
      apply div_nonneg (by linarith) (le_of_lt hs1)
    have hbound : ∀ j : Nat, j < steps.toNat →
        0 ≤ minP + (j : ℚ) * stp ∧ minP + (j : ℚ) * stp ≤ 1 := by
      intro j hj
      have hjle : (j : ℚ) ≤ ((steps - 1 : Int) : ℚ) := by
        have : (j : Int) ≤ steps - 1 := by omega
        exact_mod_cast this
      constructor
      · nlinarith
      · have hjstp : (j : ℚ) * stp ≤ maxP - minP := by
          have h2 : ((steps - 1 : Int) : ℚ) * stp = maxP - minP := by
            rw [hstp, mul_div_cancel₀ _ (ne_of_gt hs1)]
          nlinarith
        linarith
    refine ⟨?_, ?_, ?_⟩
    · unfold SweepProbability
      rw [if_neg (by omega), if_neg (by push_neg; exact ⟨h0, hmin1⟩),
        if_neg (by push_neg; exact ⟨hmax0, h1⟩), if_neg (not_lt.mpr hle),
        if_neg (by omega)]
      simp only
      rw [sweepLoop_ok bribes tau topK V minP stp ccEff alpha heff hV
        steps.toNat 0 (fun j hj1 hj2 => hbound j (by omega))]
    · intro hlt
      have hstppos : 0 < stp := by
        apply div_pos (by linarith) hs1
      exact ((List.pairwise_lt_range' 0 steps.toNat).map _
        (fun a b hab => by
          have : (a : ℚ) < (b : ℚ) := by exact_mod_cast hab
          nlinarith)).chain'
    · intro hlt hVpos
      have hstppos : 0 < stp := by
        apply div_pos (by linarith) hs1
      exact ((List.pairwise_lt_range' 0 steps.toNat).map _
        (fun a b hab => by
          have hab' : (a : ℚ) < (b : ℚ) := by exact_mod_cast hab
          have key : 0 < ((b : ℚ) - (a : ℚ)) * stp * V :=
            mul_pos (mul_pos (sub_pos.mpr hab') hstppos) hVpos
          nlinarith [key])).chain'

unseal Rat.mul Rat.inv Rat.add Rat.sub in
/-- **C7 (counterexample).** At TVL `V = 0` a fully valid sweep succeeds
yet returns constant profits, so the profits are **not** strictly
increasing with probability as the claim states: with records of values
5 and 7 from two builders, `τ = 2`, `k = 1`, TVL 0, the sweep over
`[0.1, 1.0]` with 10 steps returns ten profits all equal to `−6`. -/
theorem sweepProbability_not_strict_counterexample :
    (SweepProbability [⟨1, some 5, "a"⟩, ⟨2, some 7, "b"⟩] (some 0) 2 1
        (1/10) 1 10).map (fun r => r.results.map (·.profit)) =
      .ok (List.replicate 10 (-6)) ∧
    ¬ (List.replicate 10 ((-6 : ℚ))).Chain' (· < ·) :=
  ⟨by decide, by simp [List.replicate_succ, List.chain'_cons]⟩

unseal Rat.mul Rat.inv Rat.add Rat.sub in
theorem sweepProbability_spec_witness :
    SweepProbability [⟨1, some 5, "a"⟩, ⟨2, some 7, "b"⟩] (some 100) 2 1
        (1/10) 1 10 =
      .ok ⟨(List.range' 0 (10 : Int).toNat).map (fun (j : Nat) =>
          ⟨(1/10 + (j : ℚ) * ((1 - 1/10) / (((10 : Int) - 1 : Int) : ℚ)))
              * 100, 6,
           (1/10 + (j : ℚ) * ((1 - 1/10) / (((10 : Int) - 1 : Int) : ℚ)))
              * 100 - 6, 1/2,
           1/10 + (j : ℚ) * ((1 - 1/10) / (((10 : Int) - 1 : Int) : ℚ)),
           100⟩),
        1/10, 1, 10⟩ ∧
    ((1 : ℚ)/10 < 1 →
      ((List.range' 0 (10 : Int).toNat).map (fun (j : Nat) =>
        1/10 + (j : ℚ) * ((1 - 1/10) / (((10 : Int) - 1 : Int) : ℚ)))).Chain'
          (· < ·)) ∧
    ((1 : ℚ)/10 < 1 → (0 : ℚ) < 100 →
      ((List.range' 0 (10 : Int).toNat).map (fun (j : Nat) =>
        (1/10 + (j : ℚ) * ((1 - 1/10) / (((10 : Int) - 1 : Int) : ℚ)))
          * 100 - 6)).Chain' (· < ·)) :=
  (sweepProbability_spec [⟨1, some 5, "a"⟩, ⟨2, some 7, "b"⟩] 2 1 100
    (1/10) 1 10 6 (1/2) (by decide) (by norm_num) (by norm_num)
    (by norm_num) (by norm_num)).2 (by norm_num)

/-! ## Statistics engine (`internal/analysis` statistics file) -/

/-- Failure modes of `Statistics.PredictFutureCost`: the explicit
`no data available` error, and the Go nil-pointer panic that occurs when
the first record's `ValueWei` is nil (it is passed to
`big.Float.SetInt` without a guard), modelled as an explicit fault. -/
inductive StatError where
  | noData : StatError
  | nilFirstValueFault : StatError
deriving DecidableEq, Repr

/-- `weiPerEth = 10¹⁸`, the display-scale divisor used by the
statistics engine. -/
def weiPerEth : ℚ := 10 ^ 18

/-- The EMA update loop of `PredictFutureCost` over the records after
the first: nil values are skipped; a present value `v` updates
`ema = alpha·(v/10¹⁸) + (1 − alpha)·ema`. -/
def emaLoop (alpha : ℚ) : List SlotBribe → ℚ → ℚ
  | [], e => e
  | b :: rest, e =>
    match b.valueWei with
    | none => emaLoop alpha rest e
    | some v =>
      emaLoop alpha rest (alpha * ((v : ℚ) / weiPerEth) + (1 - alpha) * e)

/-- `Statistics.PredictFutureCost(tau, alpha)` from the statistics file
(the receiver's record list is passed explicitly): errors on an empty
list, seeds the EMA at the **unguarded** first value (nil ⇒ Go panics;
modelled as `nilFirstValueFault`), folds the EMA over the rest skipping
nil values, and returns `ema × tau`. -/
def PredictFutureCost (bribes : List SlotBribe) (tau : Nat) (alpha : ℚ) :
    Except StatError ℚ :=
  match bribes with
  | [] => .error .noData
  | b :: rest =>
    match b.valueWei with
    | none => .error .nilFirstValueFault
    | some v => .ok (emaLoop alpha rest ((v : ℚ) / weiPerEth) * (tau : ℚ))

theorem emaLoop_skips_missing (alpha : ℚ) (l : List SlotBribe) :
    ∀ e : ℚ, emaLoop alpha l e =
      emaLoop alpha (l.filter (fun x => x.valueWei.isSome)) e := by
  induction l with
  | nil => intro e; rfl
  | cons b rest ih =>
    intro e
    cases hv : b.valueWei with
    | none => rw [emaLoop, hv, List.filter_cons_of_neg (by simp [hv])]; exact ih e
    | some v =>
      rw [emaLoop, hv, List.filter_cons_of_pos (by simp [hv]), emaLoop, hv]
      exact ih _

/-- **C9.** `PredictFutureCost` returns without fault — with result the
EMA seeded at the first record's value times `τ` — exactly under the
precondition that the first record's bid value is present; absent values
after the first are skipped (filtering them out of the tail does not
change the result), while an absent first value hits an unguarded
dereference (Go panic), so presence of the first value is a genuine
totality precondition of this public interface. -/
theorem predictFutureCost_first_value_precondition (b : SlotBribe)
    (rest : List SlotBribe) (tau : Nat) (alpha : ℚ) :
    (∀ v, b.valueWei = some v →
      PredictFutureCost (b :: rest) tau alpha =
        .ok (emaLoop alpha rest ((v : ℚ) / weiPerEth) * (tau : ℚ)) ∧
      PredictFutureCost (b :: rest) tau alpha =
        PredictFutureCost
          (b :: rest.filter (fun x => x.valueWei.isSome)) tau alpha) ∧
    (b.valueWei = none →
      PredictFutureCost (b :: rest) tau alpha =
        .error .nilFirstValueFault) := by
  constructor
  · intro v hv
    constructor
    · simp only [PredictFutureCost, hv]
    · simp only [PredictFutureCost, hv]
      rw [emaLoop_skips_missing alpha rest]
  · intro hv
    simp only [PredictFutureCost, hv]

theorem predictFutureCost_first_value_precondition_witness :
    (PredictFutureCost [⟨1, some (2 * 10 ^ 18), "a"⟩, ⟨2, none, "b"⟩,
        ⟨3, some (4 * 10 ^ 18), "c"⟩] 3 (1/2) =
      .ok (emaLoop (1/2) [⟨2, none, "b"⟩, ⟨3, some (4 * 10 ^ 18), "c"⟩]
        (((2 * 10 ^ 18 : Int) : ℚ) / weiPerEth) * ((3 : Nat) : ℚ))) ∧
    PredictFutureCost [⟨1, none, "x"⟩] 1 (1/2) =
      .error .nilFirstValueFault :=
  ⟨((predictFutureCost_first_value_precondition ⟨1, some (2 * 10 ^ 18), "a"⟩
      [⟨2, none, "b"⟩, ⟨3, some (4 * 10 ^ 18), "c"⟩] 3 (1/2)).1
      (2 * 10 ^ 18) rfl).1,
   (predictFutureCost_first_value_precondition ⟨1, none, "x"⟩ [] 1
      (1/2)).2 rfl⟩

/-! ## Monte-Carlo engine (`internal/analysis` Monte-Carlo file) -/

/-- `MonteCarloResult` from the Monte-Carlo engine. Go's `ProfitStdDev`
field is `math.Sqrt` of the population variance; to stay in exact
rational arithmetic the model carries the radicand in `profitVariance`
(`ProfitStdDev = √profitVariance`, and `√` is injective on non-negative
reals, so equality and inequality of results are preserved). -/
structure MonteCarloResult where
  expectedProfit : ℚ
  profitVariance : ℚ
  probabilityProfitable : ℚ
  valueAtRisk95 : ℚ
  medianProfit : ℚ
  maxProfit : ℚ
  maxLoss : ℚ
deriving DecidableEq, Repr

/-- The `mean` helper of the Monte-Carlo file: `0` on an empty slice,
else the arithmetic mean. -/
def mcMean (values : List ℚ) : ℚ :=
  if values.length = 0 then 0 else values.sum / (values.length : ℚ)

/-- The radicand of the `stdDev` helper: `0` on an empty slice, else the
population variance `Σ(v − mean)² / n` (Go returns its square root). -/
def mcVariance (values : List ℚ) (m : ℚ) : ℚ :=
  if values.length = 0 then 0
  else ((values.map (fun v => (v - m) * (v - m))).sum) / (values.length : ℚ)

/-- The `percentile` helper: linear interpolation between the order
statistics around index `p/100 × (n−1)` of an already sorted slice
(out-of-range indexing cannot occur for `p ∈ [0,100]`; `getD 0` models
the in-range access). -/
def percentile (sortedData : List ℚ) (p : ℚ) : ℚ :=
  if sortedData.length = 0 then 0
  else
    let index := (p / 100) * ((sortedData.length - 1 : Nat) : ℚ)
    let lower := ⌊index⌋
    let upper := ⌈index⌉
    if lower = upper then sortedData.getD lower.toNat 0
    else
      let weight := index - (lower : ℚ)
      sortedData.getD lower.toNat 0 * (1 - weight) +
        sortedData.getD upper.toNat 0 * weight

/-- `SimulateAttackOutcomes(costETH, tvlUSD, priceUSD, p, n)` from the
Monte-Carlo file. The Go trial loop draws `rand.Float64()` from the
**process-global** RNG — the state of that stream is an implicit input,
so the model takes the upcoming global draws as the explicit extra
argument `rng` (trial `i` consumes draw `rng i`). `sortFloat64Slice`
(bubble sort, ascending) is modelled by an ascending insertion sort:
sorting ℚ values ascending has a unique result. The sample extremes
index `sortedProfits[0]` and `[n−1]` (Go panics for `n = 0`; `getD 0`
models the in-range access for `n ≥ 1`). -/
def SimulateAttackOutcomes (censorshipCostETH bridgeTVLUSD ethPriceUSD
    successProbability : ℚ) (numSimulations : Nat) (rng : Nat → ℚ) :
    MonteCarloResult :=
  let censorshipCostUSD := censorshipCostETH * ethPriceUSD
  let profits := (List.range numSimulations).map (fun i =>
    (if rng i < successProbability then (1 : ℚ) else 0) * bridgeTVLUSD -
      censorshipCostUSD)
  let profitableCount := (List.range numSimulations).countP
    (fun i => decide (rng i < successProbability))
  let m := mcMean profits
  let sortedProfits := List.insertionSort (· ≤ ·) profits
  { expectedProfit := m
    profitVariance := mcVariance profits m
    probabilityProfitable :=
      (profitableCount : ℚ) / ((numSimulations : Nat) : ℚ)
    valueAtRisk95 := percentile sortedProfits 5
    medianProfit := percentile sortedProfits 50
    maxProfit := sortedProfits.getD (sortedProfits.length - 1) 0
    maxLoss := sortedProfits.getD 0 0 }

/-- **C6 (amended).** The deterministic engines are pure functions of
their explicit arguments (they are plain functions in this model);
`SimulateAttackOutcomes` with `n` trials additionally depends on the
first `n` upcoming draws of the process-global random stream: two calls
with identical explicit arguments whose global streams agree on those
draws return identical results. (Randomness is **not** injectable
through the API — see the counterexample for two streams that disagree.) -/
theorem simulateAttackOutcomes_deterministic_given_draws
    (cost tvl price p : ℚ) (n : Nat) (rng1 rng2 : Nat → ℚ)
    (h : ∀ i, i < n → rng1 i = rng2 i) :
    SimulateAttackOutcomes cost tvl price p n rng1 =
      SimulateAttackOutcomes cost tvl price p n rng2 := by
  have hprofits : (List.range n).map (fun i =>
      (if rng1 i < p then (1 : ℚ) else 0) * tvl - cost * price) =
      (List.range n).map (fun i =>
      (if rng2 i < p then (1 : ℚ) else 0) * tvl - cost * price) :=
    List.map_congr_left (fun i hi => by
      rw [h i (List.mem_range.mp hi)])
  have hcount : (List.range n).countP (fun i => decide (rng1 i < p)) =
      (List.range n).countP (fun i => decide (rng2 i < p)) :=
    List.countP_congr (fun i hi => by
      rw [h i (List.mem_range.mp hi)])
  simp only [SimulateAttackOutcomes, hprofits, hcount]

theorem simulateAttackOutcomes_deterministic_given_draws_witness :
    SimulateAttackOutcomes 0 1 1 (1/2) 1 (fun _ => 0) =
      SimulateAttackOutcomes 0 1 1 (1/2) 1 (fun i => (i : ℚ)) :=
  simulateAttackOutcomes_deterministic_given_draws 0 1 1 (1/2) 1
    (fun _ => 0) (fun i => (i : ℚ))
    (fun i hi => by
      have h0 : i = 0 := by omega
      subst h0
      simp)

unseal Rat.mul Rat.inv Rat.add Rat.sub in
/-- **C6 (counterexample).** `SimulateAttackOutcomes` does **not** depend
only on its explicit arguments: with identical explicit arguments
(cost 0, TVL 1, price 1, `p = 1/2`, one trial) but different upcoming
global draws (first draw `0` vs `3/4`), the results differ (expected
profit `1` vs `0`), so its randomness is not injectable through the API
and repeated identical calls need not reproduce. -/
theorem simulateAttackOutcomes_global_rng_counterexample :
    SimulateAttackOutcomes 0 1 1 (1/2) 1 (fun _ => 0) ≠
      SimulateAttackOutcomes 0 1 1 (1/2) 1 (fun _ => 3/4) := by
  intro h
  exact absurd (congrArg MonteCarloResult.expectedProfit h) (by decide)

/-! ## Profitability matrix (`ComputeProfitabilityMatrix`)

The matrix sweep is the one place the engine can actually produce IEEE
special values (a division by `float64(steps−1) = 0`), so its `float64`
values are modelled by `F64`: a finite rational (finite arithmetic
modelled exactly, ignoring rounding), a signed infinity, or NaN, with
the IEEE-754 special-value propagation rules for the operations used.
Signed zero is not modelled: the only zero divisor arising here,
`float64(steps−1)`, is `+0`. -/

/-- A `float64` value: finite (exact rational), ±∞, or NaN. -/
inductive F64 where
  | fin (q : ℚ)
  | inf (pos : Bool)
  | nan
deriving DecidableEq, Repr

def F64.isFinite : F64 → Bool
  | .fin _ => true
  | _ => false

/-- IEEE addition on the modelled values. -/
def F64.add : F64 → F64 → F64
  | .nan, _ => .nan
  | _, .nan => .nan
  | .fin a, .fin b => .fin (a + b)
  | .fin _, .inf s => .inf s
  | .inf s, .fin _ => .inf s
  | .inf s, .inf t => if s = t then .inf s else .nan

/-- IEEE subtraction on the modelled values. -/
def F64.sub : F64 → F64 → F64
  | .nan, _ => .nan
  | _, .nan => .nan
  | .fin a, .fin b => .fin (a - b)
  | .fin _, .inf s => .inf (!s)
  | .inf s, .fin _ => .inf s
  | .inf s, .inf t => if s = t then .nan else .inf s

/-- IEEE multiplication on the modelled values (`0 × ∞ = NaN`). -/
def F64.mul : F64 → F64 → F64
  | .nan, _ => .nan
  | _, .nan => .nan
  | .fin a, .fin b => .fin (a * b)
  | .fin a, .inf s => if a = 0 then .nan else .inf (decide (0 < a) == s)
  | .inf s, .fin a => if a = 0 then .nan else .inf (decide (0 < a) == s)
  | .inf s, .inf t => .inf (s == t)

/-- IEEE division on the modelled values; a finite value divided by
(positive) zero gives ±∞ by the sign of the dividend, `0/0 = NaN`. -/
def F64.div : F64 → F64 → F64
  | .nan, _ => .nan
  | _, .nan => .nan
  | .fin a, .fin b =>
    if b = 0 then (if a = 0 then .nan else .inf (decide (0 < a)))
    else .fin (a / b)
  | .fin _, .inf _ => .fin 0
  | .inf s, .fin a => if a < 0 then .inf (!s) else .inf s
  | .inf _, .inf _ => .nan

/-- `ProfitabilityPoint` from the Monte-Carlo file. -/
structure ProfitabilityPoint where
  tvlUSD : F64
  successProbability : F64
  expectedProfitUSD : F64
deriving DecidableEq, Repr

/-- `ComputeProfitabilityMatrix(costETH, priceUSD, tvlMin, tvlMax,
tvlSteps, probMin, probMax, probSteps)` from the Monte-Carlo file:
no validation of the step counts; grid steps
`(max − min)/float64(steps−1)`, then a row-major double loop emitting
`profit = prob·tvl − costUSD` at every grid point. The scalar inputs are
finite `float64` values from the caller (`ℚ` in the model). -/
def ComputeProfitabilityMatrix (censorshipCostETH ethPriceUSD : ℚ)
    (tvlMin tvlMax : ℚ) (tvlSteps : Int) (probMin probMax : ℚ)
    (probSteps : Int) : List ProfitabilityPoint :=
  let censorshipCostUSD := censorshipCostETH * ethPriceUSD
  let tvlStep := F64.div (.fin (tvlMax - tvlMin))
    (.fin ((tvlSteps - 1 : Int) : ℚ))
  let probStep := F64.div (.fin (probMax - probMin))
    (.fin ((probSteps - 1 : Int) : ℚ))
  (List.range tvlSteps.toNat).flatMap (fun (i : Nat) =>
    let tvl := F64.add (.fin tvlMin) (F64.mul (.fin (i : ℚ)) tvlStep)
    (List.range probSteps.toNat).map (fun (j : Nat) =>
      let prob := F64.add (.fin probMin) (F64.mul (.fin (j : ℚ)) probStep)
      ⟨tvl, prob, F64.sub (F64.mul prob tvl) (.fin censorshipCostUSD)⟩))

theorem length_flatMap_const {α β : Type} (l : List α) (f : α → List β)
    (m : Nat) (h : ∀ a ∈ l, (f a).length = m) :
    (l.flatMap f).length = l.length * m := by
  induction l with
  | nil => simp
  | cons a t ih =>
    rw [List.flatMap_cons, List.length_append, h a (by simp),
      ih (fun x hx => h x (by simp [hx])), List.length_cons]
    ring

theorem computeProfitabilityMatrix_length (censorshipCostETH ethPriceUSD
    tvlMin tvlMax : ℚ) (tvlSteps : Int) (probMin probMax : ℚ)
    (probSteps : Int) :
    (ComputeProfitabilityMatrix censorshipCostETH ethPriceUSD tvlMin
      tvlMax tvlSteps probMin probMax probSteps).length =
      tvlSteps.toNat * probSteps.toNat := by
  unfold ComputeProfitabilityMatrix
  rw [length_flatMap_const _ _ probSteps.toNat (fun a _ => by simp)]
  simp

/-- The first factor of a multiplication by a step value stays finite
when the step divisor is non-zero. -/
theorem f64_grid_value_fin (lo hi : ℚ) (steps : Int) (h : 2 ≤ steps)
    (i : Nat) :
    F64.add (.fin lo) (F64.mul (.fin (i : ℚ))
      (F64.div (.fin (hi - lo)) (.fin ((steps - 1 : Int) : ℚ)))) =
      .fin (lo + (i : ℚ) * ((hi - lo) / ((steps - 1 : Int) : ℚ))) := by
  have hnz : ((steps - 1 : Int) : ℚ) ≠ 0 := by
    have : (steps - 1 : Int) ≠ 0 := by omega
    exact_mod_cast this
  rw [F64.div, if_neg hnz, F64.mul, F64.add]

/-- With a step count of `1` the grid step is `x/0` (`±∞` or NaN) and
the corresponding coordinate of every point is `lo + 0·step = NaN`. -/
theorem f64_grid_value_nan (lo hi : ℚ) :
    F64.add (.fin lo) (F64.mul (.fin ((0 : Nat) : ℚ))
      (F64.div (.fin (hi - lo)) (.fin (((1 : Int) - 1 : Int) : ℚ)))) =
      .nan := by
  by_cases h : hi - lo = 0
  · simp [F64.div, F64.mul, F64.add, h]
  · simp [F64.div, F64.mul, F64.add, h]

/-- **C10.** `ComputeProfitabilityMatrix` performs no validation of its
step counts: for `tvlSteps ≥ 2` and `probSteps ≥ 2` it returns exactly
`tvlSteps × probSteps` grid points, each with finite coordinates and
expected profit `p × V − cost`; a call with `tvlSteps = 1` or
`probSteps = 1` computes the corresponding grid step as a division by
zero and returns (non-trivially many) points whose corresponding
coordinate is non-finite (NaN), instead of an error. -/
theorem computeProfitabilityMatrix_no_validation
    (censorshipCostETH ethPriceUSD tvlMin tvlMax : ℚ) (tvlSteps : Int)
    (probMin probMax : ℚ) (probSteps : Int) :
    (2 ≤ tvlSteps → 2 ≤ probSteps →
      (ComputeProfitabilityMatrix censorshipCostETH ethPriceUSD tvlMin
        tvlMax tvlSteps probMin probMax probSteps).length =
        tvlSteps.toNat * probSteps.toNat ∧
      ∀ pt ∈ ComputeProfitabilityMatrix censorshipCostETH ethPriceUSD
          tvlMin tvlMax tvlSteps probMin probMax probSteps,
        ∃ V p : ℚ, pt.tvlUSD = .fin V ∧ pt.successProbability = .fin p ∧
          pt.expectedProfitUSD =
            .fin (p * V - censorshipCostETH * ethPriceUSD)) ∧
    (1 ≤ tvlSteps → 1 ≤ probSteps → tvlSteps = 1 ∨ probSteps = 1 →
      ComputeProfitabilityMatrix censorshipCostETH ethPriceUSD tvlMin
        tvlMax tvlSteps probMin probMax probSteps ≠ [] ∧
      ∀ pt ∈ ComputeProfitabilityMatrix censorshipCostETH ethPriceUSD
          tvlMin tvlMax tvlSteps probMin probMax probSteps,
        pt.tvlUSD.isFinite = false ∨
          pt.successProbability.isFinite = false) := by
  constructor
  · intro ht hp
    refine ⟨computeProfitabilityMatrix_length censorshipCostETH
      ethPriceUSD tvlMin tvlMax tvlSteps probMin probMax probSteps, ?_⟩
    intro pt hpt
    simp only [ComputeProfitabilityMatrix, List.mem_flatMap,
      List.mem_map, List.mem_range] at hpt
    obtain ⟨i, hi, j, hj, rfl⟩ := hpt
    refine ⟨tvlMin + (i : ℚ) * ((tvlMax - tvlMin) /
        ((tvlSteps - 1 : Int) : ℚ)),
      probMin + (j : ℚ) * ((probMax - probMin) /
        ((probSteps - 1 : Int) : ℚ)), ?_, ?_, ?_⟩
    · exact f64_grid_value_fin tvlMin tvlMax tvlSteps ht i
    · exact f64_grid_value_fin probMin probMax probSteps hp j
    · show F64.sub (F64.mul _ _) _ = _
      rw [f64_grid_value_fin tvlMin tvlMax tvlSteps ht i,
        f64_grid_value_fin probMin probMax probSteps hp j]
      simp [F64.mul, F64.sub]
  · intro ht hp hone
    constructor
    · have hlen := computeProfitabilityMatrix_length censorshipCostETH
        ethPriceUSD tvlMin tvlMax tvlSteps probMin probMax probSteps
      intro hnil
      rw [hnil] at hlen
      simp only [List.length_nil] at hlen
      have h1 : 0 < tvlSteps.toNat := by omega
      have h2 : 0 < probSteps.toNat := by omega
      exact absurd hlen.symm (Nat.mul_pos h1 h2).ne'
    · intro pt hpt
      simp only [ComputeProfitabilityMatrix, List.mem_flatMap,
        List.mem_map, List.mem_range] at hpt
      obtain ⟨i, hi, j, hj, rfl⟩ := hpt
      rcases hone with h1 | h1
      · left
        subst h1
        have hi0 : i = 0 := by omega
        subst hi0
        show (F64.add (.fin tvlMin) (F64.mul (.fin ((0 : Nat) : ℚ))
          (F64.div (.fin (tvlMax - tvlMin))
            (.fin (((1 : Int) - 1 : Int) : ℚ))))).isFinite = false
        rw [f64_grid_value_nan]
        rfl
      · right
        subst h1
        have hj0 : j = 0 := by omega
        subst hj0
        show (F64.add (.fin probMin) (F64.mul (.fin ((0 : Nat) : ℚ))
          (F64.div (.fin (probMax - probMin))
            (.fin (((1 : Int) - 1 : Int) : ℚ))))).isFinite = false
        rw [f64_grid_value_nan]
        rfl

theorem computeProfitabilityMatrix_no_validation_witness :
    ((ComputeProfitabilityMatrix 1 1 0 10 2 0 1 2).length = 2 * 2 ∧
      ∀ pt ∈ ComputeProfitabilityMatrix 1 1 0 10 2 0 1 2,
        ∃ V p : ℚ, pt.tvlUSD = .fin V ∧ pt.successProbability = .fin p ∧
          pt.expectedProfitUSD = .fin (p * V - 1 * 1)) ∧
    (ComputeProfitabilityMatrix 1 1 0 10 1 0 1 2 ≠ [] ∧
      ∀ pt ∈ ComputeProfitabilityMatrix 1 1 0 10 1 0 1 2,
        pt.tvlUSD.isFinite = false ∨
          pt.successProbability.isFinite = false) :=
  ⟨by
    have h := (computeProfitabilityMatrix_no_validation 1 1 0 10 2 0 1
      2).1 (by norm_num) (by norm_num)
    simpa using h,
   (computeProfitabilityMatrix_no_validation 1 1 0 10 1 0 1 2).2
    (by norm_num) (by norm_num) (Or.inl rfl)⟩

end InsolventByDesign
